import Mathlib

/- A shallow embedding of index.py: a line-oriented file transformer with
   temporary-file staging and atomic commit.  Python strings are modelled as
   lists of unicode characters; the filesystem and the interactive
   collaborator are modelled explicitly as world records. -/

namespace FileLab

/-- Line and file contents: a Python string as a list of characters. -/
abbrev Str := List Char

/-- Python `raw_line.rstrip("\r\n")`: remove every trailing carriage return
    and newline character from the end of a string. -/
def pyRstripCRLF (s : Str) : Str :=
  ((s.reverse).dropWhile (fun c => c == '\r' || c == '\n')).reverse

/-- Python `str.lower` (ASCII case mapping; the claims only compare against
    the ASCII answers "y", "n", "q"). -/
def pyLower (s : String) : String := ⟨s.data.map Char.toLower⟩

/-- Python `str.strip` with no argument: drop leading and trailing
    whitespace characters. -/
def pyStrip (s : String) : String :=
  ⟨((s.data.dropWhile Char.isWhitespace).reverse.dropWhile Char.isWhitespace).reverse⟩

/-- Normalisation `input(...).strip().lower()` applied by the source to the
    interactive answers. -/
def normAns (s : String) : String := pyLower (pyStrip s)

/-- `os.path.expanduser`, modelled as the identity on paths: no claim
    involves a path containing a tilde, and home-directory substitution is an
    environment lookup outside the model. -/
def expanduser (p : String) : String := p

/-- CPython `str.replace` with an empty pattern inserts the replacement
    before every character and once more at the end; this is that
    interleaving. -/
def interleave (new : Str) : Str → Str
  | [] => new
  | c :: rest => new ++ c :: interleave new rest

/-- CPython `str.replace` with a nonempty pattern: scan left to right and
    replace each leftmost non-overlapping occurrence.  `fuel` bounds the
    recursion; `fuel = s.length` is always enough because a step consumes at
    least one character. -/
def replaceFuel (old new : Str) : Nat → Str → Str
  | _, [] => []
  | 0, s => s
  | fuel + 1, c :: rest =>
    if old.isPrefixOf (c :: rest) then
      new ++ replaceFuel old new fuel (rest.drop (old.length - 1))
    else
      c :: replaceFuel old new fuel rest

/-- CPython `s.replace(old, new)`. -/
def pyReplace (s old new : Str) : Str :=
  if old.isEmpty then interleave new s else replaceFuel old new s.length s

/-- Decimal digits of `n`, most significant first, as characters; `fuel ≥ n`
    guarantees completion. -/
def decDigitsAux : Nat → Nat → Str
  | 0, _ => []
  | _ + 1, 0 => []
  | fuel + 1, n + 1 =>
    decDigitsAux fuel ((n + 1) / 10) ++ [Nat.digitChar ((n + 1) % 10)]

/-- Decimal rendering of a natural number, as Python's `"%d"` produces it. -/
def decChars (n : Nat) : Str :=
  if n = 0 then ['0'] else decDigitsAux n n

/-- Python's `f"{n:04d}"`: left-pad the decimal rendering with zeros to a
    minimum width of four. -/
def zeroPad4 (ds : Str) : Str :=
  List.replicate (4 - ds.length) '0' ++ ds

/-- Parse a digit string back to a natural number (used to state that the
    numbering transform neither truncates nor wraps). -/
def charsToNat (l : Str) : Nat :=
  l.foldl (fun a c => 10 * a + (c.toNat - 48)) 0

/-- The user's transformation choice, as the source's `opt` dict: a menu
    choice string plus the optional replace target and replacement. -/
structure Opt where
  choice : String
  target : Option Str
  replacement : Option Str

/-- `transform_line_core(core_text, idx, opt)` from index.py: apply the
    chosen transformation to one line core (no trailing newline); `none`
    means the line is skipped. -/
def transform_line_core (core_text : Str) (idx : Nat) (opt : Opt) : Option Str :=
  if opt.choice = "1" then
    some (zeroPad4 (decChars (idx + 1)) ++ ':' :: ' ' :: core_text)
  else if opt.choice = "2" then
    some (core_text.map Char.toUpper)
  else if opt.choice = "3" then
    some (core_text.map Char.toLower)
  else if opt.choice = "4" then
    if core_text.all Char.isWhitespace then none else some core_text
  else if opt.choice = "5" then
    some (pyReplace core_text (opt.target.getD []) (opt.replacement.getD []))
  else if opt.choice = "6" then
    some core_text
  else if opt.choice = "7" then
    some core_text
  else
    some core_text

/-- Outcome of probing one candidate encoding in `choose_encoding_try`:
    the probe line decodes, raises a `UnicodeDecodeError`, or raises some
    other exception (permission, is-a-directory, ...). -/
inductive CandOutcome where
  | decodes
  | decodeFail
  | raises
deriving DecidableEq

/-- Result of `choose_encoding_try`: a chosen encoding, the final
    `UnicodeDecodeError` after all candidates fail, or a propagated
    non-decode exception. -/
inductive ProbeResult where
  | ok (enc : String)
  | decodeError
  | raised
deriving DecidableEq

/-- `choose_encoding_try(filename, encodings)` from index.py.  The file is
    abstracted to the behaviour `behav` each candidate encoding exhibits on
    the probe read: try candidates in order; a decode failure moves to the
    next candidate; any other exception re-raises immediately; if no
    candidate decodes, raise a `UnicodeDecodeError`. -/
def choose_encoding_try (behav : String → CandOutcome) : List String → ProbeResult
  | [] => .decodeError
  | e :: rest =>
    match behav e with
    | .decodes => .ok e
    | .decodeFail => choose_encoding_try behav rest
    | .raises => .raised

/-- The triple returned by a pipeline (`lines_read, lines_written, path`),
    or a propagated exception. -/
inductive PipeResult where
  | ok (linesRead linesWritten : Nat) (path : Option String)
  | err
deriving DecidableEq

/-- Observable outcome of one pipeline invocation: the returned (or raised)
    result, whether a staging file is left on disk, the chunks successfully
    written to the staging file during the run, the rename performed (target
    path and full staged content) if any, and how many times the overwrite
    prompt was shown. -/
structure Outcome where
  result : PipeResult
  tmpRemains : Bool
  staged : List Str
  committed : Option (String × List Str)
  overwriteAsks : Nat
deriving DecidableEq

/-- Environment of one `process_streaming` call: the decoded input lines,
    the injected failure points (`readFail = some k`: fetching the `k`-th
    input line raises; `writeFail = some k`: the `k`-th `tmp.write` raises;
    `replaceFail`: `os.replace` raises), which paths exist at commit time,
    and the interactive answers. -/
structure StreamWorld where
  inputLines : List Str
  readFail : Option Nat
  writeFail : Option Nat
  fsExists : String → Bool
  overwriteAnswer : String
  newNameAnswer : String
  replaceFail : Bool

/-- Environment of one `process_reverse` call: additionally the answer to
    the whole-file-load warning, and `readFail` abstracted to whether
    `readlines()` raises. -/
structure ReverseWorld where
  confirmAnswer : String
  inputLines : List Str
  readFail : Bool
  writeFail : Option Nat
  fsExists : String → Bool
  overwriteAnswer : String
  newNameAnswer : String
  replaceFail : Bool

/-- State of the streaming read/transform/write loop when it ends: whether
    an exception was raised, the two counters, and the chunks written to the
    staging file so far. -/
structure LoopOut where
  failed : Bool
  linesRead : Nat
  linesWritten : Nat
  chunks : List Str
deriving DecidableEq

/-- The `for idx, raw_line in enumerate(src)` loop of `process_streaming`:
    count the line, split content from the trailing-newline flag, transform,
    skip on `None`, otherwise re-apply the flag and write. -/
def streamLoop (opt : Opt) (rf wf : Option Nat) :
    List Str → Nat → Nat → Nat → List Str → LoopOut
  | [], _idx, lr, lw, ch => ⟨false, lr, lw, ch⟩
  | raw :: rest, idx, lr, lw, ch =>
    if rf = some idx then ⟨true, lr, lw, ch⟩
    else
      match transform_line_core (pyRstripCRLF raw) idx opt with
      | none => streamLoop opt rf wf rest (idx + 1) (lr + 1) lw ch
      | some t =>
        if wf = some lw then ⟨true, lr + 1, lw, ch⟩
        else
          streamLoop opt rf wf rest (idx + 1) (lr + 1) (lw + 1)
            (ch ++ [t ++ (if raw.getLast? = some '\n' then ['\n'] else [])])

/-- The transform loop of `process_reverse`: build `transformed_lines` in
    original order (`idx` is the ordinal of the first line of the list). -/
def transformChunks (opt : Opt) : Nat → List Str → List Str
  | _idx, [] => []
  | idx, raw :: rest =>
    match transform_line_core (pyRstripCRLF raw) idx opt with
    | none => transformChunks opt (idx + 1) rest
    | some t =>
      (t ++ (if raw.getLast? = some '\n' then ['\n'] else []))
        :: transformChunks opt (idx + 1) rest

/-- The `os.replace` step shared by both pipelines: on failure the staging
    file is removed and the exception propagates; on success the staging
    file is renamed onto `p` and the counters are returned. -/
def finishReplace (replaceFail : Bool) (asks : Nat) (okRes : Nat × Nat)
    (chunks : List Str) (p : String) : Outcome :=
  if replaceFail then ⟨.err, false, chunks, none, asks⟩
  else ⟨.ok okRes.1 okRes.2 (some p), false, chunks, some (p, chunks), asks⟩

/-- The commit protocol both pipelines run after staging (identical in the
    source up to the counters returned on cancellation): if the destination
    exists, ask once about overwriting; a non-"y" answer asks for a new
    name, where "q" cancels (removing the staging file) and anything else
    becomes the destination of the rename with no further existence check. -/
def commitPhase (fsE : String → Bool) (ovr nn0 : String) (replaceFail : Bool)
    (cancelRes okRes : Nat × Nat) (chunks : List Str) (output_path : String) : Outcome :=
  if fsE output_path then
    if normAns ovr ≠ "y" then
      if pyLower (pyStrip nn0) = "q" then
        ⟨.ok cancelRes.1 cancelRes.2 none, false, chunks, none, 1⟩
      else
        finishReplace replaceFail 1 okRes chunks (expanduser (pyStrip nn0))
    else finishReplace replaceFail 1 okRes chunks output_path
  else finishReplace replaceFail 0 okRes chunks output_path

/-- `process_streaming(input_path, encoding, opt, output_path)` from
    index.py: stream the lines through the transform into the staging file
    (any exception in the loop removes the staging file and re-raises), then
    run the commit protocol; cancellation returns `(lines_read, 0, None)`. -/
def process_streaming (w : StreamWorld) (opt : Opt) (output_path : String) : Outcome :=
  let lo := streamLoop opt w.readFail w.writeFail w.inputLines 0 0 0 []
  if lo.failed then ⟨.err, false, lo.chunks, none, 0⟩
  else
    commitPhase w.fsExists w.overwriteAnswer w.newNameAnswer w.replaceFail
      (lo.linesRead, 0) (lo.linesRead, lo.linesWritten) lo.chunks output_path

/-- `process_reverse(input_path, encoding, opt, output_path)` from index.py:
    a pre-flight confirmation ("n" cancels with `(0, 0, None)` and no
    filesystem effect), `readlines()`, the in-memory transform loop, then
    the reversed chunks are written to the staging file by a `writelines`
    call that is NOT wrapped in any handler (a failure there leaves the
    staging file on disk), and finally the same commit protocol with
    `(0, 0, None)` on cancellation. -/
def process_reverse (w : ReverseWorld) (opt : Opt) (output_path : String) : Outcome :=
  if normAns w.confirmAnswer = "n" then ⟨.ok 0 0 none, false, [], none, 0⟩
  else if w.readFail then ⟨.err, false, [], none, 0⟩
  else
    let transformed := transformChunks opt 0 w.inputLines
    let revd := transformed.reverse
    match w.writeFail with
    | some k =>
      if k < revd.length then ⟨.err, true, revd.take k, none, 0⟩
      else
        commitPhase w.fsExists w.overwriteAnswer w.newNameAnswer w.replaceFail
          (0, 0) (w.inputLines.length, transformed.length) revd output_path
    | none =>
      commitPhase w.fsExists w.overwriteAnswer w.newNameAnswer w.replaceFail
        (0, 0) (w.inputLines.length, transformed.length) revd output_path

/-- A clean line core: contains no newline and no carriage return. -/
def cleanCore (s : Str) : Prop := '\n' ∉ s ∧ '\r' ∉ s

/-- A newline-terminated line as Python text iteration yields it: a clean
    core followed by a single `'\n'`. -/
def termLine (l : Str) : Prop := ∃ u, cleanCore u ∧ l = u ++ ['\n']

/-- Split a character stream into lines, keeping each line's terminating
    newline (the line decomposition of a text file); `acc` holds the
    reversed characters of the line in progress. -/
def linesOfAux : List Char → List Char → List Str
  | acc, [] => if acc.isEmpty then [] else [acc.reverse]
  | acc, c :: rest =>
    if c = '\n' then (acc.reverse ++ ['\n']) :: linesOfAux [] rest
    else linesOfAux (c :: acc) rest

/-- The line decomposition of a character stream. -/
def linesOf (s : List Char) : List Str := linesOfAux [] s

theorem dropWhile_eq_self_of_forall {p : Char → Bool} :
    ∀ {l : Str}, (∀ x ∈ l, p x = false) → l.dropWhile p = l
  | [], _ => rfl
  | c :: rest, h => by
    have hc : p c = false := h c (List.mem_cons_self c rest)
    simp [List.dropWhile_cons, hc]

theorem pyRstrip_term {u : Str} (h : cleanCore u) :
    pyRstripCRLF (u ++ ['\n']) = u := by
  unfold pyRstripCRLF
  rw [List.reverse_append]
  have hstep : (['\n'].reverse ++ u.reverse).dropWhile (fun c => c == '\r' || c == '\n')
      = u.reverse.dropWhile (fun c => c == '\r' || c == '\n') := by
    simp [List.dropWhile_cons]
  rw [hstep, dropWhile_eq_self_of_forall, List.reverse_reverse]
  intro x hx
  have hxu : x ∈ u := List.mem_reverse.mp hx
  have h1 : x ≠ '\n' := fun he => h.1 (he ▸ hxu)
  have h2 : x ≠ '\r' := fun he => h.2 (he ▸ hxu)
  simp [h1, h2]

theorem pyRstrip_clean {l : Str} (h : cleanCore l) : pyRstripCRLF l = l := by
  unfold pyRstripCRLF
  rw [dropWhile_eq_self_of_forall, List.reverse_reverse]
  intro x hx
  have hxu : x ∈ l := List.mem_reverse.mp hx
  have h1 : x ≠ '\n' := fun he => h.1 (he ▸ hxu)
  have h2 : x ≠ '\r' := fun he => h.2 (he ▸ hxu)
  simp [h1, h2]

theorem getLast?_term (u : Str) : (u ++ ['\n']).getLast? = some '\n' := by
  simp [List.getLast?_concat]

theorem getLast?_clean {l : Str} (h : cleanCore l) : l.getLast? ≠ some '\n' := by
  intro hc
  obtain ⟨hne, he⟩ := List.mem_getLast?_eq_getLast (l := l) (x := '\n') hc
  exact h.1 (he ▸ List.getLast_mem hne)

/-- A line that Python text iteration can produce passes unchanged through
    the split into core and trailing-newline flag followed by their
    recombination. -/
theorem chunk_ident {l : Str} (h : termLine l ∨ cleanCore l) :
    pyRstripCRLF l ++ (if l.getLast? = some '\n' then ['\n'] else []) = l := by
  rcases h with ⟨u, hu, rfl⟩ | h
  · rw [pyRstrip_term hu, if_pos (getLast?_term u)]
  · rw [pyRstrip_clean h, if_neg (getLast?_clean h)]
    simp

theorem interleave_nil_left : ∀ s : Str, interleave [] s = s
  | [] => rfl
  | c :: rest => by simp [interleave, interleave_nil_left rest]

theorem interleave_length (r : Str) :
    ∀ s : Str, (interleave r s).length = r.length * (s.length + 1) + s.length
  | [] => by simp [interleave]
  | c :: rest => by
    simp only [interleave, List.length_append, List.length_cons,
      interleave_length r rest, List.length_cons]
    ring

theorem interleave_eq_self_iff (r s : Str) : interleave r s = s ↔ r = [] := by
  constructor
  · intro h
    have hlen := congrArg List.length h
    rw [interleave_length] at hlen
    have : r.length * (s.length + 1) = 0 := by omega
    rcases Nat.mul_eq_zero.mp this with h0 | h0
    · exact List.length_eq_zero.mp h0
    · omega
  · rintro rfl
    exact interleave_nil_left s

theorem transform_passthrough {opt : Opt}
    (h : opt.choice = "6" ∨ opt.choice = "7") (c : Str) (i : Nat) :
    transform_line_core c i opt = some c := by
  rcases h with h | h <;> simp [transform_line_core, h]

theorem transform_isSome_of_ne4 {opt : Opt} (h : opt.choice ≠ "4")
    (c : Str) (i : Nat) : ∃ t, transform_line_core c i opt = some t := by
  unfold transform_line_core
  split_ifs <;> exact ⟨_, rfl⟩

/-- The consecutive ordinals `s, s+1, ..., s+n-1`. -/
def idxList : Nat → Nat → List Nat
  | _, 0 => []
  | s, n + 1 => s :: idxList (s + 1) n

theorem transformChunks_passthrough {opt : Opt}
    (hopt : ∀ c i, transform_line_core c i opt = some c) :
    ∀ (ls : List Str) (idx : Nat), (∀ l ∈ ls, termLine l ∨ cleanCore l) →
      transformChunks opt idx ls = ls
  | [], _, _ => rfl
  | raw :: rest, idx, h => by
    have hhead := h raw (List.mem_cons_self raw rest)
    have htail : ∀ l ∈ rest, termLine l ∨ cleanCore l := fun l hl =>
      h l (List.mem_cons_of_mem raw hl)
    simp only [transformChunks, hopt]
    rw [chunk_ident hhead, transformChunks_passthrough hopt rest (idx + 1) htail]

theorem transformChunks_length_le (opt : Opt) :
    ∀ (idx : Nat) (ls : List Str), (transformChunks opt idx ls).length ≤ ls.length
  | _, [] => by simp [transformChunks]
  | idx, raw :: rest => by
    cases h : transform_line_core (pyRstripCRLF raw) idx opt with
    | none =>
      simp only [transformChunks, h, List.length_cons]
      exact Nat.le_succ_of_le (transformChunks_length_le opt (idx + 1) rest)
    | some t =>
      simp only [transformChunks, h, List.length_cons]
      exact Nat.succ_le_succ (transformChunks_length_le opt (idx + 1) rest)

theorem transformChunks_length_eq {opt : Opt} (h4 : opt.choice ≠ "4") :
    ∀ (idx : Nat) (ls : List Str), (transformChunks opt idx ls).length = ls.length
  | _, [] => by simp [transformChunks]
  | idx, raw :: rest => by
    obtain ⟨t, ht⟩ := transform_isSome_of_ne4 h4 (pyRstripCRLF raw) idx
    simp only [transformChunks, ht, List.length_cons]
    exact congrArg (· + 1) (transformChunks_length_eq h4 (idx + 1) rest)

theorem streamLoop_no_fail (opt : Opt) :
    ∀ (ls : List Str) (idx lr lw : Nat) (ch : List Str),
      streamLoop opt none none ls idx lr lw ch =
        ⟨false, lr + ls.length, lw + (transformChunks opt idx ls).length,
          ch ++ transformChunks opt idx ls⟩
  | [], idx, lr, lw, ch => by simp [streamLoop, transformChunks]
  | raw :: rest, idx, lr, lw, ch => by
    have hrf : ¬((none : Option Nat) = some idx) := fun hc => Option.noConfusion hc
    have hwf : ¬((none : Option Nat) = some lw) := fun hc => Option.noConfusion hc
    cases h : transform_line_core (pyRstripCRLF raw) idx opt with
    | none =>
      simp only [streamLoop, transformChunks, h, if_neg hrf]
      rw [streamLoop_no_fail opt rest (idx + 1) (lr + 1) lw ch]
      have hlen : (raw :: rest).length = rest.length + 1 := rfl
      congr 1
      omega
    | some t =>
      simp only [streamLoop, transformChunks, h, if_neg hrf, if_neg hwf]
      rw [streamLoop_no_fail opt rest (idx + 1) (lr + 1) (lw + 1)
        (ch ++ [t ++ (if raw.getLast? = some '\n' then ['\n'] else [])])]
      have hlen : (raw :: rest).length = rest.length + 1 := rfl
      congr 1 <;> first | rfl | (simp only [List.length_cons]; omega) | simp [List.append_assoc]

theorem streamLoop_ok_counts (opt : Opt) (rf wf : Option Nat) :
    ∀ (ls : List Str) (idx lr lw : Nat) (ch : List Str),
      (streamLoop opt rf wf ls idx lr lw ch).failed = false →
      (streamLoop opt rf wf ls idx lr lw ch).linesRead = lr + ls.length ∧
      lw ≤ (streamLoop opt rf wf ls idx lr lw ch).linesWritten ∧
      (streamLoop opt rf wf ls idx lr lw ch).linesWritten ≤ lw + ls.length ∧
      (opt.choice ≠ "4" →
        (streamLoop opt rf wf ls idx lr lw ch).linesWritten = lw + ls.length)
  | [], idx, lr, lw, ch, _ => by simp [streamLoop]
  | raw :: rest, idx, lr, lw, ch, hok => by
    by_cases hrf : rf = some idx
    · simp only [streamLoop, if_pos hrf] at hok
      cases hok
    · cases h : transform_line_core (pyRstripCRLF raw) idx opt with
      | none =>
        simp only [streamLoop, if_neg hrf, h] at hok ⊢
        obtain ⟨h1, h2, h3, _⟩ :=
          streamLoop_ok_counts opt rf wf rest (idx + 1) (lr + 1) lw ch hok
        have hlen : (raw :: rest).length = rest.length + 1 := rfl
        refine ⟨by omega, h2, by omega, ?_⟩
        intro h4
        obtain ⟨t, ht⟩ := transform_isSome_of_ne4 h4 (pyRstripCRLF raw) idx
        rw [ht] at h
        cases h
      | some t =>
        by_cases hwf : wf = some lw
        · simp only [streamLoop, if_neg hrf, h, if_pos hwf] at hok
          cases hok
        · simp only [streamLoop, if_neg hrf, h, if_neg hwf] at hok ⊢
          obtain ⟨h1, h2, h3, h4⟩ := streamLoop_ok_counts opt rf wf rest (idx + 1)
            (lr + 1) (lw + 1)
            (ch ++ [t ++ (if raw.getLast? = some '\n' then ['\n'] else [])]) hok
          have hlen : (raw :: rest).length = rest.length + 1 := rfl
          refine ⟨by omega, by omega, by omega, ?_⟩
          intro hc
          have := h4 hc
          omega

theorem transformChunks_of_allSome {opt : Opt} (t : Nat → Str) :
    ∀ (ls : List Str) (idx : Nat),
      (∀ j (hj : j < ls.length),
        transform_line_core (pyRstripCRLF (ls.get ⟨j, hj⟩)) (idx + j) opt
          = some (t (idx + j))) →
      (∀ l ∈ ls, l.getLast? = some '\n') →
      transformChunks opt idx ls = (idxList idx ls.length).map (fun j => t j ++ ['\n'])
  | [], _, _, _ => by simp [transformChunks, idxList]
  | raw :: rest, idx, hsome, hnl => by
    have h0 : transform_line_core (pyRstripCRLF raw) idx opt = some (t idx) := by
      simpa using hsome 0 (by simp)
    have hnlr : raw.getLast? = some '\n' := hnl raw (List.mem_cons_self _ _)
    have hrest : ∀ j (hj : j < rest.length),
        transform_line_core (pyRstripCRLF (rest.get ⟨j, hj⟩)) ((idx + 1) + j) opt
          = some (t ((idx + 1) + j)) := by
      intro j hj
      have heq : idx + (j + 1) = (idx + 1) + j := by omega
      have := hsome (j + 1) (by simpa using Nat.succ_lt_succ hj)
      rw [heq] at this
      simpa using this
    simp only [transformChunks, h0, hnlr, List.length_cons, idxList, if_pos]
    rw [transformChunks_of_allSome t rest (idx + 1) hrest
      (fun l hl => hnl l (List.mem_cons_of_mem _ hl))]
    simp [List.map_cons]

theorem linesOfAux_no_nl :
    ∀ (u : List Char), '\n' ∉ u → ∀ (acc rest : List Char),
      linesOfAux acc (u ++ rest) = linesOfAux (u.reverse ++ acc) rest
  | [], _, acc, rest => by simp [linesOfAux]
  | c :: u', h, acc, rest => by
    have hc : c ≠ '\n' := fun he => h (he ▸ List.mem_cons_self c u')
    have hu' : '\n' ∉ u' := fun hm => h (List.mem_cons_of_mem c hm)
    simp only [List.cons_append, linesOfAux, if_neg hc, List.append_eq]
    rw [linesOfAux_no_nl u' hu' (c :: acc) rest]
    simp

theorem linesOf_cons_term (p rest : List Char) (hp : '\n' ∉ p) :
    linesOf (p ++ '\n' :: rest) = (p ++ ['\n']) :: linesOf rest := by
  unfold linesOf
  rw [linesOfAux_no_nl p hp [] ('\n' :: rest)]
  simp [linesOfAux]

theorem linesOf_join_term :
    ∀ (ls : List Str), (∀ l ∈ ls, termLine l) → linesOf ls.flatten = ls
  | [], _ => rfl
  | l :: rest, h => by
    obtain ⟨u, hu, rfl⟩ := h l (List.mem_cons_self l rest)
    have hrest : ∀ x ∈ rest, termLine x := fun x hx => h x (List.mem_cons_of_mem _ hx)
    have hsplit : (u ++ ['\n']) ++ rest.flatten = u ++ '\n' :: rest.flatten := by simp
    rw [List.flatten_cons, hsplit, linesOf_cons_term u rest.flatten hu.1,
      linesOf_join_term rest hrest]

theorem charsToNat_append_one (xs : Str) (c : Char) :
    charsToNat (xs ++ [c]) = 10 * charsToNat xs + (c.toNat - 48) := by
  unfold charsToNat
  rw [List.foldl_append]
  rfl

theorem charsToNat_replicate_zero (ds : Str) :
    ∀ k, charsToNat (List.replicate k '0' ++ ds) = charsToNat ds
  | 0 => by simp
  | k + 1 => by
    have : List.replicate (k + 1) '0' ++ ds = '0' :: (List.replicate k '0' ++ ds) := by
      simp [List.replicate_succ]
    rw [this]
    show List.foldl (fun a c => 10 * a + (c.toNat - 48)) (10 * 0 + ('0'.toNat - 48))
      (List.replicate k '0' ++ ds) = charsToNat ds
    have hz : 10 * 0 + ('0'.toNat - 48) = 0 := by decide
    rw [hz]
    exact charsToNat_replicate_zero ds k

theorem digitChar_val {d : Nat} (h : d < 10) : (Nat.digitChar d).toNat - 48 = d := by
  interval_cases d <;> decide

theorem digitChar_isDigit {d : Nat} (h : d < 10) : (Nat.digitChar d).isDigit = true := by
  interval_cases d <;> decide

theorem decDigitsAux_val : ∀ (fuel n : Nat), n ≤ fuel →
    charsToNat (decDigitsAux fuel n) = n
  | 0, n, h => by
    have : n = 0 := Nat.le_zero.mp h
    subst this
    rfl
  | fuel + 1, 0, _ => rfl
  | fuel + 1, n + 1, h => by
    have hq : (n + 1) / 10 ≤ fuel := by
      have := Nat.div_lt_self (Nat.succ_pos n) (by norm_num : 1 < 10)
      omega
    rw [decDigitsAux, charsToNat_append_one,
      decDigitsAux_val fuel ((n + 1) / 10) hq,
      digitChar_val (Nat.mod_lt _ (by norm_num))]
    exact Nat.div_add_mod (n + 1) 10

theorem decDigitsAux_digits : ∀ (fuel n : Nat),
    ∀ c ∈ decDigitsAux fuel n, c.isDigit = true
  | 0, _, c, hc => absurd hc (List.not_mem_nil c)
  | fuel + 1, 0, c, hc => absurd hc (List.not_mem_nil c)
  | fuel + 1, n + 1, c, hc => by
    rw [decDigitsAux] at hc
    rcases List.mem_append.mp hc with hm | hm
    · exact decDigitsAux_digits fuel ((n + 1) / 10) c hm
    · have : c = Nat.digitChar ((n + 1) % 10) := List.mem_singleton.mp hm
      subst this
      exact digitChar_isDigit (Nat.mod_lt _ (by norm_num))

theorem decChars_val (n : Nat) : charsToNat (decChars n) = n := by
  unfold decChars
  by_cases h : n = 0
  · subst h
    rfl
  · rw [if_neg h]
    exact decDigitsAux_val n n le_rfl

theorem decChars_digits (n : Nat) : ∀ c ∈ decChars n, c.isDigit = true := by
  unfold decChars
  by_cases h : n = 0
  · subst h
    intro c hc
    have : c = '0' := List.mem_singleton.mp hc
    subst this
    decide
  · rw [if_neg h]
    exact decDigitsAux_digits n n

theorem zeroPad4_length (ds : Str) : (zeroPad4 ds).length = max 4 ds.length := by
  unfold zeroPad4
  simp only [List.length_append, List.length_replicate]
  omega

theorem zeroPad4_val (ds : Str) : charsToNat (zeroPad4 ds) = charsToNat ds :=
  charsToNat_replicate_zero ds (4 - ds.length)

theorem zeroPad4_digits (ds : Str) (h : ∀ c ∈ ds, c.isDigit = true) :
    ∀ c ∈ zeroPad4 ds, c.isDigit = true := by
  intro c hc
  rcases List.mem_append.mp hc with hm | hm
  · have : c = '0' := List.eq_of_mem_replicate hm
    subst this
    decide
  · exact h c hm

theorem idxList_length : ∀ (s n : Nat), (idxList s n).length = n
  | _, 0 => rfl
  | s, n + 1 => by simp [idxList, idxList_length (s + 1) n]

/-- C1 (counterexample): the claim says Replace with an empty target leaves
    the content unchanged; on the code (CPython `str.replace` semantics) the
    content "ab" with target "" and replacement "-" becomes "-a-b-", not
    "ab". -/
theorem C1_empty_target_counterexample :
    transform_line_core "ab".toList 0 ⟨"5", some [], some ['-']⟩ ≠ some "ab".toList ∧
    transform_line_core "ab".toList 0 ⟨"5", some [], some ['-']⟩ = some "-a-b-".toList := by
  decide

/-- C1 (amended): the Replace transform with an empty target inserts the
    replacement before every character of the content and once more after
    the last character; in particular the content is returned unchanged
    exactly when the replacement is the empty string. -/
theorem C1_replace_empty_target (content repl : Str) (idx : Nat) :
    transform_line_core content idx ⟨"5", some [], some repl⟩
      = some (interleave repl content) ∧
    (transform_line_core content idx ⟨"5", some [], some repl⟩ = some content ↔
      repl = []) := by
  have hmain : transform_line_core content idx ⟨"5", some [], some repl⟩
      = some (interleave repl content) := by
    simp [transform_line_core, pyReplace]
  refine ⟨hmain, ?_⟩
  rw [hmain]
  constructor
  · intro h
    exact (interleave_eq_self_iff repl content).mp (Option.some_inj.mp h)
  · rintro rfl
    rw [interleave_nil_left]

/-- C7: the encoding probe returns the first candidate in priority order
    whose probe read decodes (given that no candidate raises a non-decode
    error), and raises a decode error exactly when every candidate fails to
    decode. -/
theorem C7_probe_first_success (behav : String → CandOutcome) :
    (∀ (pre : List String) (e : String) (post : List String),
      (∀ x ∈ pre, behav x = .decodeFail) → behav e = .decodes →
      choose_encoding_try behav (pre ++ e :: post) = .ok e) ∧
    (∀ cands : List String, (∀ x ∈ cands, behav x = .decodeFail) →
      choose_encoding_try behav cands = .decodeError) := by
  constructor
  · intro pre
    induction pre with
    | nil =>
      intro e post _ hd
      simp [choose_encoding_try, hd]
    | cons x pre' ih =>
      intro e post hpre hd
      have hx : behav x = .decodeFail := hpre x (List.mem_cons_self _ _)
      simp only [List.cons_append, choose_encoding_try, hx]
      exact ih e post (fun y hy => hpre y (List.mem_cons_of_mem _ hy)) hd
  · intro cands
    induction cands with
    | nil => intro _; rfl
    | cons x rest ih =>
      intro h
      have hx : behav x = .decodeFail := h x (List.mem_cons_self _ _)
      simp only [choose_encoding_try, hx]
      exact ih (fun y hy => h y (List.mem_cons_of_mem _ hy))

/-- C7 (witness): a file decodable under the second candidate but not the
    first yields the second encoding, and an all-fail candidate list yields
    the decode error. -/
theorem C7_probe_first_success_witness :
    choose_encoding_try
      (fun e => if e = "cp1252" then .decodes else .decodeFail)
      ["utf-8", "cp1252", "latin-1"] = .ok "cp1252" ∧
    choose_encoding_try
      (fun e => if e = "cp1252" then .decodes else .decodeFail)
      ["utf-8", "ascii"] = .decodeError := by
  constructor
  · exact (C7_probe_first_success _).1 ["utf-8"] "cp1252" ["latin-1"]
      (by decide) (by decide)
  · exact (C7_probe_first_success _).2 ["utf-8", "ascii"] (by decide)

/-- C8: the AddLineNumbers transform prefixes the content with a digit
    field and the separator ": "; the field parses back to exactly the
    1-based line number (no truncation or wraparound), is at least four
    characters wide, zero-padded, and widens to the number's full digit
    count beyond 9999; ["foo", "bar"] become ["0001: foo", "0002: bar"]. -/
theorem C8_add_line_numbers :
    (∀ (content : Str) (idx : Nat), ∃ field,
      transform_line_core content idx ⟨"1", none, none⟩
        = some (field ++ ':' :: ' ' :: content) ∧
      charsToNat field = idx + 1 ∧
      4 ≤ field.length ∧
      field.length = max 4 (decChars (idx + 1)).length ∧
      (∀ c ∈ field, c.isDigit = true)) ∧
    transform_line_core "foo".toList 0 ⟨"1", none, none⟩ = some "0001: foo".toList ∧
    transform_line_core "bar".toList 1 ⟨"1", none, none⟩ = some "0002: bar".toList ∧
    transform_line_core "baz".toList 9999 ⟨"1", none, none⟩ = some "10000: baz".toList := by
  refine ⟨?_, by decide, by decide, by decide⟩
  intro content idx
  refine ⟨zeroPad4 (decChars (idx + 1)), ?_, ?_, ?_, zeroPad4_length _, ?_⟩
  · unfold transform_line_core
    rw [if_pos rfl]
  · rw [zeroPad4_val]
    exact decChars_val (idx + 1)
  · rw [zeroPad4_length]
    omega
  · exact zeroPad4_digits _ (decChars_digits _)

theorem commitPhase_result_cases (fsE : String → Bool) (ovr nn0 : String)
    (rfail : Bool) (cres okRes : Nat × Nat) (chunks : List Str) (out : String)
    (lr lw : Nat) (cp : Option String)
    (hs : (commitPhase fsE ovr nn0 rfail cres okRes chunks out).result = .ok lr lw cp) :
    (lr = cres.1 ∧ lw = cres.2 ∧ cp = none) ∨
    (lr = okRes.1 ∧ lw = okRes.2 ∧ ∃ p, cp = some p) := by
  unfold commitPhase finishReplace at hs
  split_ifs at hs <;>
    first
      | exact PipeResult.noConfusion hs
      | (injection hs with e1 e2 e3
         exact Or.inl ⟨e1.symm, e2.symm, e3.symm⟩)
      | (injection hs with e1 e2 e3
         exact Or.inr ⟨e1.symm, e2.symm, _, e3.symm⟩)

/-- C2 (counterexample): a failure while `process_reverse` writes the
    staged lines (the `writelines` call, which the source does not guard)
    propagates the error while leaving the staging file on disk, so not
    every failure path deletes the staging artifact. -/
theorem C2_reverse_write_failure_leaks :
    (process_reverse ⟨"", ["a\n".toList], false, some 0, fun _ => false, "", "", false⟩
      ⟨"6", none, none⟩ "out.txt").result = .err ∧
    (process_reverse ⟨"", ["a\n".toList], false, some 0, fun _ => false, "", "", false⟩
      ⟨"6", none, none⟩ "out.txt").tmpRemains = true := by
  decide

/-- C2 (amended): every failure and cancellation path of the streaming
    pipeline, and every path of the reverse pipeline on which the write of
    the staged lines does not itself fail, removes the staging file before
    returning; only a failure inside the reverse pipeline's unguarded
    staging write leaves the staging file behind. -/
theorem C2_staging_cleanup (w : StreamWorld) (v : ReverseWorld)
    (opt opt' : Opt) (p p' : String) (hvw : v.writeFail = none) :
    (process_streaming w opt p).tmpRemains = false ∧
    (process_reverse v opt' p').tmpRemains = false := by
  constructor
  · simp only [process_streaming, commitPhase, finishReplace]
    split_ifs <;> rfl
  · simp only [process_reverse, hvw, commitPhase, finishReplace]
    split_ifs <;> rfl

/-- C2 (witness): the streaming pipeline removes its staging file when a
    mid-stream write fails, and the reverse pipeline removes its staging
    file when the rename step fails. -/
theorem C2_staging_cleanup_witness :
    (process_streaming ⟨["a\n".toList], none, some 0, fun _ => false, "", "", false⟩
        ⟨"7", none, none⟩ "out.txt").tmpRemains = false ∧
    (process_reverse ⟨"", ["a\n".toList], false, none, fun _ => false, "", "", true⟩
        ⟨"6", none, none⟩ "out.txt").tmpRemains = false :=
  C2_staging_cleanup _ _ _ _ _ _ rfl

/-- C3 (counterexample): with "out.txt" and "alt.txt" both existing,
    declining to overwrite "out.txt" and supplying "alt.txt" renames the
    staging file onto the existing "alt.txt" with the overwrite prompt
    having been shown only once: the confirmation is not asked again for
    the new path before it is mutated. -/
theorem C3_no_reconfirmation_counterexample :
    (fun p => p == "out.txt" || p == "alt.txt") "alt.txt" = true ∧
    (process_streaming
        ⟨["x\n".toList], none, none, fun p => p == "out.txt" || p == "alt.txt",
          "n", "alt.txt", false⟩ ⟨"7", none, none⟩ "out.txt").overwriteAsks = 1 ∧
    (process_streaming
        ⟨["x\n".toList], none, none, fun p => p == "out.txt" || p == "alt.txt",
          "n", "alt.txt", false⟩ ⟨"7", none, none⟩ "out.txt").committed
      = some ("alt.txt", ["x\n".toList]) := by
  decide

/-- C3 (amended): when the destination exists, overwrite is declined and a
    non-"q" new path is supplied, both pipelines rename the staging file
    directly onto the new path; the overwrite confirmation is shown exactly
    once, so an existing file at the new path is replaced without a second
    confirmation. -/
theorem C3_new_path_commits_directly (w : StreamWorld) (v : ReverseWorld)
    (opt opt' : Opt) (out out' : String)
    (hrf : w.readFail = none) (hwf : w.writeFail = none)
    (hfs : w.fsExists out = true) (hovr : normAns w.overwriteAnswer ≠ "y")
    (hnn : pyLower (pyStrip w.newNameAnswer) ≠ "q") (hrep : w.replaceFail = false)
    (hc : normAns v.confirmAnswer ≠ "n") (hvr : v.readFail = false)
    (hvw : v.writeFail = none) (hvfs : v.fsExists out' = true)
    (hvo : normAns v.overwriteAnswer ≠ "y")
    (hvn : pyLower (pyStrip v.newNameAnswer) ≠ "q") (hvrep : v.replaceFail = false) :
    ((process_streaming w opt out).committed
        = some (expanduser (pyStrip w.newNameAnswer), (process_streaming w opt out).staged) ∧
      (process_streaming w opt out).overwriteAsks = 1) ∧
    ((process_reverse v opt' out').committed
        = some (expanduser (pyStrip v.newNameAnswer), (process_reverse v opt' out').staged) ∧
      (process_reverse v opt' out').overwriteAsks = 1) := by
  constructor
  · simp [process_streaming, streamLoop_no_fail, commitPhase, finishReplace,
      hrf, hwf, hfs, hovr, hnn, hrep]
  · simp [process_reverse, commitPhase, finishReplace,
      hc, hvr, hvw, hvfs, hvo, hvn, hvrep]

/-- C3 (amended, witness): concrete runs of both pipelines in which the
    declined destination and the supplied new path both exist. -/
theorem C3_new_path_commits_directly_witness :
    ((process_streaming
        ⟨["x\n".toList], none, none, fun p => p == "out.txt" || p == "alt.txt",
          "n", "alt.txt", false⟩ ⟨"7", none, none⟩ "out.txt").committed
      = some (expanduser (pyStrip "alt.txt"),
          (process_streaming
            ⟨["x\n".toList], none, none, fun p => p == "out.txt" || p == "alt.txt",
              "n", "alt.txt", false⟩ ⟨"7", none, none⟩ "out.txt").staged) ∧
      (process_streaming
        ⟨["x\n".toList], none, none, fun p => p == "out.txt" || p == "alt.txt",
          "n", "alt.txt", false⟩ ⟨"7", none, none⟩ "out.txt").overwriteAsks = 1) ∧
    ((process_reverse
        ⟨"", ["x\n".toList], false, none, fun p => p == "out.txt" || p == "alt.txt",
          "n", "alt.txt", false⟩ ⟨"6", none, none⟩ "out.txt").committed
      = some (expanduser (pyStrip "alt.txt"),
          (process_reverse
            ⟨"", ["x\n".toList], false, none, fun p => p == "out.txt" || p == "alt.txt",
              "n", "alt.txt", false⟩ ⟨"6", none, none⟩ "out.txt").staged) ∧
      (process_reverse
        ⟨"", ["x\n".toList], false, none, fun p => p == "out.txt" || p == "alt.txt",
          "n", "alt.txt", false⟩ ⟨"6", none, none⟩ "out.txt").overwriteAsks = 1) :=
  C3_new_path_commits_directly _ _ _ _ _ _ rfl rfl (by decide) (by decide) (by decide)
    rfl (by decide) rfl rfl (by decide) (by decide) (by decide) rfl

/-- C10: on cancellation both pipelines return `committed_path = none` with
    fixed counters: the streaming overwrite-declined-then-cancel path
    returns `(lines_read, 0, none)` even though the transformed lines were
    written to the staging file, and the reverse pipeline's pre-flight
    decline and its overwrite-declined-then-cancel path both return
    `(0, 0, none)`. -/
theorem C10_cancel_counters (w : StreamWorld) (v u : ReverseWorld)
    (opt o2 o3 : Opt) (out p2 p3 : String)
    (hrf : w.readFail = none) (hwf : w.writeFail = none)
    (hfs : w.fsExists out = true) (hovr : normAns w.overwriteAnswer ≠ "y")
    (hq : pyLower (pyStrip w.newNameAnswer) = "q")
    (hdecl : normAns v.confirmAnswer = "n")
    (hc : normAns u.confirmAnswer ≠ "n") (hur : u.readFail = false)
    (huw : u.writeFail = none) (hufs : u.fsExists p3 = true)
    (huo : normAns u.overwriteAnswer ≠ "y")
    (huq : pyLower (pyStrip u.newNameAnswer) = "q") :
    ((process_streaming w opt out).result = .ok w.inputLines.length 0 none ∧
      (process_streaming w opt out).staged = transformChunks opt 0 w.inputLines ∧
      (process_streaming w opt out).committed = none) ∧
    ((process_reverse v o2 p2).result = .ok 0 0 none ∧
      (process_reverse v o2 p2).committed = none) ∧
    ((process_reverse u o3 p3).result = .ok 0 0 none ∧
      (process_reverse u o3 p3).committed = none) := by
  refine ⟨?_, ?_, ?_⟩
  · simp [process_streaming, streamLoop_no_fail, commitPhase,
      hrf, hwf, hfs, hovr, hq]
  · simp [process_reverse, hdecl]
  · simp [process_reverse, commitPhase, hc, hur, huw, hufs, huo, huq]

/-- C10 (witness): a concrete streaming cancellation reporting
    `lines_written = 0` while one line was in fact staged, and the two
    concrete reverse cancellations. -/
theorem C10_cancel_counters_witness :
    ((process_streaming ⟨["x\n".toList], none, none, fun p => p == "o.txt", "", "q", false⟩
        ⟨"7", none, none⟩ "o.txt").result = .ok 1 0 none ∧
      (process_streaming ⟨["x\n".toList], none, none, fun p => p == "o.txt", "", "q", false⟩
        ⟨"7", none, none⟩ "o.txt").staged
        = transformChunks ⟨"7", none, none⟩ 0 ["x\n".toList] ∧
      (process_streaming ⟨["x\n".toList], none, none, fun p => p == "o.txt", "", "q", false⟩
        ⟨"7", none, none⟩ "o.txt").committed = none) ∧
    ((process_reverse ⟨"n", ["x\n".toList], false, none, fun _ => false, "", "", false⟩
        ⟨"6", none, none⟩ "o.txt").result = .ok 0 0 none ∧
      (process_reverse ⟨"n", ["x\n".toList], false, none, fun _ => false, "", "", false⟩
        ⟨"6", none, none⟩ "o.txt").committed = none) ∧
    ((process_reverse ⟨"", ["x\n".toList], false, none, fun p => p == "o.txt", "", "q", false⟩
        ⟨"6", none, none⟩ "o.txt").result = .ok 0 0 none ∧
      (process_reverse ⟨"", ["x\n".toList], false, none, fun p => p == "o.txt", "", "q", false⟩
        ⟨"6", none, none⟩ "o.txt").committed = none) :=
  C10_cancel_counters _ _ _ _ _ _ _ _ _ rfl rfl (by decide) (by decide) (by decide)
    (by decide) (by decide) rfl rfl (by decide) (by decide) (by decide)

/-- C4: the streaming pipeline with the Identity transform commits, at the
    destination, exactly the input's line sequence — each line's content
    and its trailing-newline flag are preserved, so the committed bytes are
    identical to the input bytes — and reports `lines_read = lines_written`
    equal to the input line count. -/
theorem C4_identity_roundtrip (w : StreamWorld) (out : String)
    (hrf : w.readFail = none) (hwf : w.writeFail = none)
    (hfs : w.fsExists out = false) (hrep : w.replaceFail = false)
    (hlines : ∀ l ∈ w.inputLines, termLine l ∨ cleanCore l) :
    process_streaming w ⟨"7", none, none⟩ out =
      ⟨.ok w.inputLines.length w.inputLines.length (some out), false,
        w.inputLines, some (out, w.inputLines), 0⟩ := by
  have hpass : ∀ c i, transform_line_core c i ⟨"7", none, none⟩ = some c :=
    transform_passthrough (Or.inr rfl)
  have hchunks : transformChunks ⟨"7", none, none⟩ 0 w.inputLines = w.inputLines :=
    transformChunks_passthrough hpass w.inputLines 0 hlines
  simp [process_streaming, streamLoop_no_fail, hchunks, commitPhase, finishReplace,
    hrf, hwf, hfs, hrep]

/-- C4 (witness): a concrete two-line input, the second line lacking its
    trailing newline, is committed byte-identically. -/
theorem C4_identity_roundtrip_witness :
    process_streaming
        ⟨["hello\n".toList, "world".toList], none, none, fun _ => false, "", "", false⟩
        ⟨"7", none, none⟩ "out.txt" =
      ⟨.ok 2 2 (some "out.txt"), false, ["hello\n".toList, "world".toList],
        some ("out.txt", ["hello\n".toList, "world".toList]), 0⟩ :=
  C4_identity_roundtrip
    ⟨["hello\n".toList, "world".toList], none, none, fun _ => false, "", "", false⟩
    "out.txt" rfl rfl rfl rfl
    (by
      intro l hl
      rcases List.mem_cons.mp hl with rfl | hl'
      · exact Or.inl ⟨"hello".toList, ⟨by decide, by decide⟩, rfl⟩
      · have : l = "world".toList := by simpa using hl'
        subst this
        exact Or.inr ⟨by decide, by decide⟩)

/-- C5 (counterexample): the claim asserts `lines_written = lines_read`
    for every TransformSpec other than RemoveBlank, but the streaming
    overwrite-declined-then-cancel path returns a PipelineResult with
    `lines_written = 0` and `lines_read = 1` under the Identity
    transform. -/
theorem C5_cancel_counterexample :
    (process_streaming ⟨["x\n".toList], none, none, fun p => p == "o.txt", "", "q", false⟩
        ⟨"7", none, none⟩ "o.txt").result = .ok 1 0 none ∧
    (⟨"7", none, none⟩ : Opt).choice ≠ "4" ∧ (0 : Nat) ≠ 1 := by
  decide

/-- C5 (amended): every returned PipelineResult of either pipeline
    satisfies `lines_written ≤ lines_read`, and for every TransformSpec
    other than RemoveBlank, `lines_written = lines_read` whenever the run
    committed (`committed_path ≠ none`); on cancellation `lines_written`
    is reported as 0. -/
theorem C5_line_conservation (w : StreamWorld) (v : ReverseWorld)
    (opt opt' : Opt) (out out' : String)
    (lr lw : Nat) (cp : Option String) (lr' lw' : Nat) (cp' : Option String)
    (hs : (process_streaming w opt out).result = .ok lr lw cp)
    (hv : (process_reverse v opt' out').result = .ok lr' lw' cp') :
    (lw ≤ lr ∧ (opt.choice ≠ "4" → cp ≠ none → lw = lr)) ∧
    (lw' ≤ lr' ∧ (opt'.choice ≠ "4" → cp' ≠ none → lw' = lr')) := by
  constructor
  · simp only [process_streaming] at hs
    by_cases hb : (streamLoop opt w.readFail w.writeFail w.inputLines 0 0 0 []).failed
    · rw [if_pos hb] at hs
      exact PipeResult.noConfusion hs
    · rw [if_neg hb] at hs
      obtain ⟨h1, h2, h3, h4⟩ := streamLoop_ok_counts opt w.readFail w.writeFail
        w.inputLines 0 0 0 [] (by simpa using hb)
      rcases commitPhase_result_cases _ _ _ _ _ _ _ _ _ _ _ hs with
        ⟨e1, e2, e3⟩ | ⟨e1, e2, ⟨p, e3⟩⟩
      · subst e1; subst e2; subst e3
        exact ⟨by simp, fun _ hcp => absurd rfl hcp⟩
      · subst e1; subst e2; subst e3
        refine ⟨by simp only; omega, fun h4' _ => ?_⟩
        have := h4 h4'
        simp only at h1 this ⊢
        omega
  · simp only [process_reverse] at hv
    by_cases hdec : normAns v.confirmAnswer = "n"
    · rw [if_pos hdec] at hv
      injection hv with e1 e2 e3
      exact ⟨by omega, fun _ _ => by omega⟩
    · rw [if_neg hdec] at hv
      by_cases hvr : v.readFail = true
      · rw [if_pos hvr] at hv
        exact PipeResult.noConfusion hv
      · rw [if_neg hvr] at hv
        have hle := transformChunks_length_le opt' 0 v.inputLines
        cases hwfc : v.writeFail with
        | some k =>
          simp only [hwfc] at hv
          by_cases hk : k < (transformChunks opt' 0 v.inputLines).reverse.length
          · rw [if_pos hk] at hv
            exact PipeResult.noConfusion hv
          · rw [if_neg hk] at hv
            rcases commitPhase_result_cases _ _ _ _ _ _ _ _ _ _ _ hv with
              ⟨e1, e2, e3⟩ | ⟨e1, e2, ⟨p, e3⟩⟩
            · subst e1; subst e2; subst e3
              exact ⟨by omega, fun _ _ => by omega⟩
            · subst e1; subst e2; subst e3
              refine ⟨by simpa using hle, fun h4' _ => ?_⟩
              have := transformChunks_length_eq h4' 0 v.inputLines
              simpa using this
        | none =>
          simp only [hwfc] at hv
          rcases commitPhase_result_cases _ _ _ _ _ _ _ _ _ _ _ hv with
            ⟨e1, e2, e3⟩ | ⟨e1, e2, ⟨p, e3⟩⟩
          · subst e1; subst e2; subst e3
            exact ⟨by omega, fun _ _ => by omega⟩
          · subst e1; subst e2; subst e3
            refine ⟨by simpa using hle, fun h4' _ => ?_⟩
            have := transformChunks_length_eq h4' 0 v.inputLines
            simpa using this

/-- C5 (amended, witness): concrete committed runs of both pipelines with
    the Identity and ReverseLines transforms in which the counters are
    equal. -/
theorem C5_line_conservation_witness :
    ((1 : Nat) ≤ 1 ∧ ((⟨"7", none, none⟩ : Opt).choice ≠ "4" →
        (some "out.txt" : Option String) ≠ none → (1 : Nat) = 1)) ∧
    ((1 : Nat) ≤ 1 ∧ ((⟨"6", none, none⟩ : Opt).choice ≠ "4" →
        (some "out.txt" : Option String) ≠ none → (1 : Nat) = 1)) :=
  C5_line_conservation
    ⟨["x\n".toList], none, none, fun _ => false, "", "", false⟩
    ⟨"", ["x\n".toList], false, none, fun _ => false, "", "", false⟩
    ⟨"7", none, none⟩ ⟨"6", none, none⟩ "out.txt" "out.txt"
    1 1 (some "out.txt") 1 1 (some "out.txt") (by decide) (by decide)

/-- C6: on a newline-terminated input whose per-line transform keeps every
    line, the reverse pipeline commits the transformed lines in exactly
    reversed order, the transform having been applied to each line at its
    original 0-based ordinal (the ordinals `0, ..., n-1` are mapped and then
    the list of results is reversed), and reports both counters equal to
    the input line count. -/
theorem C6_reverse_order (v : ReverseWorld) (opt : Opt) (out : String) (t : Nat → Str)
    (hc : normAns v.confirmAnswer ≠ "n") (hvr : v.readFail = false)
    (hvw : v.writeFail = none) (hfs : v.fsExists out = false)
    (hrep : v.replaceFail = false)
    (hnl : ∀ l ∈ v.inputLines, l.getLast? = some '\n')
    (hsome : ∀ j (hj : j < v.inputLines.length),
      transform_line_core (pyRstripCRLF (v.inputLines.get ⟨j, hj⟩)) j opt
        = some (t j)) :
    (process_reverse v opt out).committed
      = some (out,
          ((idxList 0 v.inputLines.length).map (fun j => t j ++ ['\n'])).reverse) ∧
    (process_reverse v opt out).result
      = .ok v.inputLines.length v.inputLines.length (some out) := by
  have hchunks : transformChunks opt 0 v.inputLines
      = (idxList 0 v.inputLines.length).map (fun j => t j ++ ['\n']) :=
    transformChunks_of_allSome t v.inputLines 0
      (fun j hj => by simpa using hsome j hj) hnl
  constructor
  · simp [process_reverse, commitPhase, finishReplace, hc, hvr, hvw, hfs, hrep, hchunks]
  · simp [process_reverse, commitPhase, finishReplace, hc, hvr, hvw, hfs, hrep, hchunks,
      idxList_length]

/-- C6 (witness): the input lines "foo\n", "bar\n" under the AddLineNumbers
    transform are committed as "0002: bar\n", "0001: foo\n" — numbered by
    original position, written in reversed order. -/
theorem C6_reverse_order_witness :
    (process_reverse ⟨"", ["foo\n".toList, "bar\n".toList], false, none,
        fun _ => false, "", "", false⟩ ⟨"1", none, none⟩ "out.txt").committed
      = some ("out.txt", ["0002: bar\n".toList, "0001: foo\n".toList]) ∧
    (process_reverse ⟨"", ["foo\n".toList, "bar\n".toList], false, none,
        fun _ => false, "", "", false⟩ ⟨"1", none, none⟩ "out.txt").result
      = .ok 2 2 (some "out.txt") :=
  C6_reverse_order
    ⟨"", ["foo\n".toList, "bar\n".toList], false, none, fun _ => false, "", "", false⟩
    ⟨"1", none, none⟩ "out.txt"
    (fun j => if j = 0 then "0001: foo".toList else "0002: bar".toList)
    (by decide) rfl rfl rfl rfl (by decide) (by decide)

/-- C9: in the reverse pipeline each staged chunk carries the
    trailing-newline flag of its original input line, so when the last
    input line lacks a trailing newline its content is written first
    without a newline: the committed chunk list is that bare content
    followed by the earlier lines reversed, the first line of the committed
    byte stream is the last input line's content concatenated with the
    previous input line, the committed output has one line fewer than the
    input, and it is not the line-by-line reversal of the input. -/
theorem C9_last_line_merges (v : ReverseWorld) (out : String) (opt : Opt)
    (ls : List Str) (lastL : Str)
    (hopt : opt.choice = "6")
    (hin : v.inputLines = ls ++ [lastL])
    (hterm : ∀ l ∈ ls, termLine l) (hlast : cleanCore lastL) (hne : ls ≠ [])
    (hc : normAns v.confirmAnswer ≠ "n") (hvr : v.readFail = false)
    (hvw : v.writeFail = none) (hfs : v.fsExists out = false)
    (hrep : v.replaceFail = false) :
    (process_reverse v opt out).committed = some (out, lastL :: ls.reverse) ∧
    (∃ m rest, ls.reverse = m :: rest ∧
      linesOf (lastL :: ls.reverse).flatten = (lastL ++ m) :: rest) ∧
    (linesOf (lastL :: ls.reverse).flatten).length + 1 = v.inputLines.length ∧
    linesOf (lastL :: ls.reverse).flatten ≠ v.inputLines.reverse := by
  have hpass : ∀ c i, transform_line_core c i opt = some c :=
    transform_passthrough (Or.inl hopt)
  have hall : ∀ l ∈ ls ++ [lastL], termLine l ∨ cleanCore l := by
    intro l hl
    rcases List.mem_append.mp hl with hm | hm
    · exact Or.inl (hterm l hm)
    · have : l = lastL := List.mem_singleton.mp hm
      subst this
      exact Or.inr hlast
  have hchunks : transformChunks opt 0 v.inputLines = ls ++ [lastL] := by
    rw [hin]
    exact transformChunks_passthrough hpass (ls ++ [lastL]) 0 hall
  have hrev : (ls ++ [lastL]).reverse = lastL :: ls.reverse := by simp
  obtain ⟨m, rest, hls⟩ : ∃ m rest, ls.reverse = m :: rest := by
    cases hl : ls.reverse with
    | nil => exact absurd (by simpa using congrArg List.reverse hl) hne
    | cons m rest => exact ⟨m, rest, rfl⟩
  have hmem : m ∈ ls := by
    have : m ∈ ls.reverse := hls ▸ List.mem_cons_self m rest
    simpa using this
  obtain ⟨u, hu, hmu⟩ := hterm m hmem
  have hrestterm : ∀ x ∈ rest, termLine x := by
    intro x hx
    have : x ∈ ls.reverse := hls ▸ List.mem_cons_of_mem m hx
    exact hterm x (by simpa using this)
  have hflat : (lastL :: ls.reverse).flatten
      = (lastL ++ u) ++ '\n' :: rest.flatten := by
    rw [hls, List.flatten_cons, List.flatten_cons, hmu]
    simp
  have hlinesOf : linesOf (lastL :: ls.reverse).flatten = (lastL ++ m) :: rest := by
    rw [hflat, linesOf_cons_term (lastL ++ u) rest.flatten
      (by
        intro hmm
        rcases List.mem_append.mp hmm with hmm | hmm
        · exact hlast.1 hmm
        · exact hu.1 hmm),
      linesOf_join_term rest hrestterm, hmu]
    simp
  refine ⟨?_, ⟨m, rest, hls, hlinesOf⟩, ?_, ?_⟩
  · simp [process_reverse, commitPhase, finishReplace, hc, hvr, hvw, hfs, hrep,
      hchunks, hrev]
  · rw [hlinesOf, hin]
    have h1 : (ls ++ [lastL]).length = ls.length + 1 := by simp
    have h2 : ls.reverse.length = ls.length := by simp
    have h3 : (m :: rest).length = rest.length + 1 := rfl
    have h4 : ls.reverse.length = (m :: rest).length := by rw [hls]
    simp only [List.length_cons]
    omega
  · rw [hlinesOf, hin]
    intro heq
    have hlen := congrArg List.length heq
    have h2 : ls.reverse.length = ls.length := by simp
    have h4 : ls.reverse.length = (m :: rest).length := by rw [hls]
    have h5 : ((ls ++ [lastL]).reverse).length = ls.length + 1 := by simp
    simp only [List.length_cons] at hlen h4
    omega

/-- C9 (witness): the input ["a\n", "b"] (final line unterminated) commits
    as the chunks ["b", "a\n"], whose byte stream "ba\n" is the single
    line "ba\n" — the reversal merged the last two lines rather than
    producing the two-line reversal ["b", "a\n"] as separate lines. -/
theorem C9_last_line_merges_witness :
    (process_reverse ⟨"", ["a\n".toList, "b".toList], false, none,
        fun _ => false, "", "", false⟩ ⟨"6", none, none⟩ "out.txt").committed
      = some ("out.txt", ["b".toList, "a\n".toList]) ∧
    (∃ m rest, (["a\n".toList] : List Str).reverse = m :: rest ∧
      linesOf (["b".toList, "a\n".toList] : List Str).flatten
        = ("b".toList ++ m) :: rest) ∧
    (linesOf (["b".toList, "a\n".toList] : List Str).flatten).length + 1
      = (["a\n".toList, "b".toList] : List Str).length ∧
    linesOf (["b".toList, "a\n".toList] : List Str).flatten
      ≠ (["a\n".toList, "b".toList] : List Str).reverse :=
  C9_last_line_merges
    ⟨"", ["a\n".toList, "b".toList], false, none, fun _ => false, "", "", false⟩
    "out.txt" ⟨"6", none, none⟩ ["a\n".toList] "b".toList rfl rfl
    (by
      intro l hl
      have : l = "a\n".toList := List.mem_singleton.mp hl
      subst this
      exact ⟨"a".toList, ⟨by decide, by decide⟩, rfl⟩)
    ⟨by decide, by decide⟩ (by decide) (by decide) rfl rfl rfl rfl

/-- Sanity check of the CPython replace embedding on a nonempty target:
    "abcab".replace("ab", "X") = "XcX". -/
theorem pyReplace_nonempty_example :
    pyReplace "abcab".toList "ab".toList "X".toList = "XcX".toList := by decide

end FileLab
